import Mathlib

/-!
Verification development for the Database-Manager repository.

The definitions below are shallow embeddings of the edit-reconciliation
engine (webview `saveChanges` handlers in `src/src/extension.ts` and the
unnamed webview variant), the MongoDB command parser in the unnamed
`DatabaseManager`, the retrying `connect` of `DatabaseServiceImpl`, the
`ConfigManager` defensive-copy store, and the `DatabaseManager`
connection-status state machine.  JavaScript objects are modelled as
association lists with unique keys, JavaScript values as the inductive
`Value`, and string building follows the source text operation by
operation.
-/

namespace DBMan

/-- The single-quote character, written via its code point. -/
def sq : Char := Char.ofNat 39

/-- The single-quote character as a one-character string. -/
def sqs : String := String.singleton sq

/-- JavaScript runtime values as they occur in row data: `null`,
`undefined`, strings and numbers (modelled as integers). -/
inductive Value where
  | vNull
  | vUndefined
  | vStr (s : String)
  | vNum (n : Int)
deriving DecidableEq, Repr

/-- Whitespace test matching the JavaScript `\s` class on the ASCII
range (space, tab, LF, VT, FF, CR). -/
def isWsChar (c : Char) : Bool :=
  c = ' ' || c = Char.ofNat 9 || c = Char.ofNat 10 ||
  c = Char.ofNat 11 || c = Char.ofNat 12 || c = Char.ofNat 13

/-- Trim of a character list on both ends, as JavaScript `trim()`. -/
def trimChars (l : List Char) : List Char :=
  ((l.dropWhile isWsChar).reverse.dropWhile isWsChar).reverse

/-- JavaScript `s.trim()`. -/
def jsTrim (s : String) : String := ⟨trimChars s.data⟩

/-- JavaScript `value.replace(/'/g, "''")`: double every single quote. -/
def escapeSq (s : String) : String :=
  ⟨s.data.foldr (fun c acc => if c = sq then sq :: sq :: acc else c :: acc) []⟩

/-- String coercion used when a non-string value is concatenated into a
query (`'x = ' + value`). -/
def jsRaw : Value → String
  | .vNull => "null"
  | .vUndefined => "undefined"
  | .vStr s => s
  | .vNum n => toString n

/-- The test `value === null || value === 'NULL' || value === ''` used
throughout the relational statement builders. -/
def isNullish : Value → Bool
  | .vNull => true
  | .vStr s => s = "NULL" || s = ""
  | _ => false

/-- Rows and argument objects: association lists from column name to
value (JavaScript object keys are unique). -/
abbrev Row := List (String × Value)

/-- JavaScript `obj[key]`: `undefined` when the key is absent. -/
def objGet (row : Row) (k : String) : Value :=
  (row.lookup k).getD .vUndefined

/-- Generic JavaScript `Map.set` / object assignment `obj[k] = v`:
replace the existing binding or append a new one. -/
def setAssoc {α : Type} (l : List (String × α)) (k : String) (v : α) :
    List (String × α) :=
  if (l.lookup k).isSome then
    l.map fun p => if p.1 = k then (k, v) else p
  else l ++ [(k, v)]

/-- Generic JavaScript `Map.delete`. -/
def eraseAssoc {α : Type} (l : List (String × α)) (k : String) :
    List (String × α) :=
  l.filter fun p => p.1 ≠ k

/-- A delete entry of the `changes` object built by the save handler in
`src/src/extension.ts` (lines 1055-1077). -/
structure DeleteOp where
  primaryKeyData : Row
  rowData : Row
deriving DecidableEq, Repr

/-- An update entry of the `changes` object (lines 1079-1097). -/
structure UpdateOp where
  primaryKeyData : Row
  updateData : Row
deriving DecidableEq, Repr

/-- An insert entry of the `changes` object (lines 1099-1106). -/
structure InsertOp where
  insertData : Row
deriving DecidableEq, Repr

/-- The `changes` object of the save handler. -/
structure Changes where
  deletes : List DeleteOp
  updates : List UpdateOp
  inserts : List InsertOp
deriving DecidableEq, Repr

/-- The message posted by the webview of `src/src/extension.ts`
(`{modifiedData, deletedRows, newRows}`). -/
structure SaveMsg where
  modifiedData : List (String × Row)
  deletedRows : List String
  newRows : List String
deriving Repr

/-- Construction of the `changes` object from the message and the
re-fetched `originalData` (`src/src/extension.ts` lines 1054-1106). -/
def buildChanges (primaryKeys : List String)
    (originalData : List (String × Row)) (msg : SaveMsg) : Changes :=
  { deletes := msg.deletedRows.filterMap fun rowId =>
      (originalData.lookup rowId).map fun row =>
        { primaryKeyData := primaryKeys.map fun pk => (pk, objGet row pk)
          rowData := row }
    updates := msg.modifiedData.filterMap fun p =>
      if msg.newRows.contains p.1 then none
      else some
        { primaryKeyData :=
            match originalData.lookup p.1 with
            | some row => primaryKeys.map fun pk => (pk, objGet row pk)
            | none => []
          updateData := p.2 }
    inserts := msg.newRows.filterMap fun rowId =>
      (msg.modifiedData.lookup rowId).map fun d => { insertData := d } }

/-- `"'" + value.replace(/'/g, "''") + "'"` for strings, raw embedding
otherwise (delete conditions and insert values in
`src/src/extension.ts`). -/
def renderEsc : Value → String
  | .vStr s => sqs ++ escapeSq s ++ sqs
  | w => jsRaw w

/-- `"'" + value + "'"` for strings, raw embedding otherwise (update
conditions and set values in `src/src/extension.ts`, which do not
escape). -/
def renderNoEsc : Value → String
  | .vStr s => sqs ++ s ++ sqs
  | w => jsRaw w

/-- One conjunct of the delete `WHERE` clause built from a full original
row (`src/src/extension.ts` lines 1196-1204). -/
def deleteCond (p : String × Value) : String :=
  if isNullish p.2 then p.1 ++ " IS NULL"
  else p.1 ++ " = " ++ renderEsc p.2

/-- The delete `WHERE` clause: all conditions, empty ones filtered,
joined with `AND`. -/
def deleteWhere (row : Row) : String :=
  String.intercalate " AND " ((row.map deleteCond).filter (fun c => c ≠ ""))

/-- The `rowId` recovery of the delete loop: the first deleted row id
whose original row agrees with some primary-key entry
(`src/src/extension.ts` lines 1184-1188). -/
def findDeleteRowId (deletedRows : List String)
    (originalData : List (String × Row)) (dOp : DeleteOp) : Option String :=
  deletedRows.find? fun id =>
    dOp.primaryKeyData.any fun p =>
      match originalData.lookup id with
      | some row => objGet row p.1 = p.2
      | none => false

/-- The delete statements of the relational branch
(`src/src/extension.ts` lines 1182-1214); rows with no recoverable
original data or an empty `WHERE` clause are skipped. -/
def deleteStmts (tableName : String) (deletedRows : List String)
    (originalData : List (String × Row)) (deletes : List DeleteOp) :
    List String :=
  deletes.filterMap fun dOp =>
    match findDeleteRowId deletedRows originalData dOp with
    | none => none
    | some rowId =>
      match originalData.lookup rowId with
      | none => none
      | some row =>
        let conds := deleteWhere row
        if conds = "" then none
        else some ("DELETE FROM " ++ tableName ++ " WHERE " ++ conds)

/-- One conjunct of the update `WHERE` clause
(`src/src/extension.ts` lines 1218-1230): primary keys always compare by
value, other columns use `IS NULL` for nullish values; strings are not
escaped. -/
def updateCond (primaryKeys : List String) (p : String × Value) : String :=
  if primaryKeys.contains p.1 then p.1 ++ " = " ++ renderNoEsc p.2
  else if isNullish p.2 then p.1 ++ " IS NULL"
  else p.1 ++ " = " ++ renderNoEsc p.2

/-- One fragment of the update `SET` list
(`src/src/extension.ts` lines 1232-1243); strings are not escaped. -/
def updateSet (primaryKeys : List String) (p : String × Value) : String :=
  if primaryKeys.contains p.1 then p.1 ++ " = " ++ renderNoEsc p.2
  else if p.2 = .vNull then p.1 ++ " = NULL"
  else p.1 ++ " = " ++ renderNoEsc p.2

/-- The full `UPDATE` statement built for one update operation
(`src/src/extension.ts` lines 1216-1247). -/
def updateStmt (tableName : String) (primaryKeys : List String)
    (uOp : UpdateOp) : String :=
  let whereConds := String.intercalate " AND "
    ((uOp.primaryKeyData.map (updateCond primaryKeys)).filter (fun c => c ≠ ""))
  let setValues := String.intercalate ", "
    (uOp.updateData.map (updateSet primaryKeys))
  "UPDATE " ++ tableName ++ " SET " ++ setValues ++ " WHERE " ++ whereConds

/-- The primary-key keep test of the insert loop
(`src/src/extension.ts` lines 1264-1275): a primary-key column is kept
only when its value is neither `undefined`, `null`, the string `NULL`,
nor blank after `toString().trim()`. -/
def keepPK : Value → Bool
  | .vUndefined => false
  | .vNull => false
  | .vStr s => s ≠ "NULL" && jsTrim s ≠ ""
  | .vNum _ => true

/-- The rendering of one insert value (`src/src/extension.ts`
lines 1277-1284): nullish values become the unquoted keyword `NULL`,
strings are quoted with quote doubling, numbers are embedded raw. -/
def insertVal (v : Value) : String :=
  if isNullish v then "NULL" else renderEsc v

/-- The column/value pairs kept by the insert loop: primary-key columns
with no usable value are dropped, all other columns are kept. -/
def insertKept (primaryKeys : List String) (iOp : InsertOp) : Row :=
  iOp.insertData.filter fun p =>
    if primaryKeys.contains p.1 then keepPK p.2 else true

/-- The full `INSERT` statement built for one insert operation
(`src/src/extension.ts` lines 1251-1292). -/
def insertStmt (tableName : String) (primaryKeys : List String)
    (iOp : InsertOp) : String :=
  let kept := insertKept primaryKeys iOp
  let columns := kept.map Prod.fst
  let values := kept.map fun p => insertVal p.2
  if columns.length > 0 then
    "INSERT INTO " ++ tableName ++ " (" ++ String.intercalate ", " columns ++
      ") VALUES (" ++ String.intercalate ", " values ++ ")"
  else
    "INSERT INTO " ++ tableName ++ " DEFAULT VALUES"

/-- Kind tag of an emitted relational write statement. -/
inductive StmtKind where
  | kDelete
  | kUpdate
  | kInsert
deriving DecidableEq, Repr

/-- A write statement of the relational branch together with the loop
that produced it. -/
structure Stmt where
  kind : StmtKind
  text : String
deriving DecidableEq, Repr

/-- All write statements executed by the relational branch of the save
handler, in execution order: the delete loop, then the update loop, then
the insert loop (`src/src/extension.ts` lines 1180-1293). -/
def relationalStmts (tableName : String) (primaryKeys : List String)
    (deletedRows : List String) (originalData : List (String × Row))
    (changes : Changes) : List Stmt :=
  (deleteStmts tableName deletedRows originalData changes.deletes).map
      (fun q => { kind := .kDelete, text := q }) ++
    (changes.updates.map fun u =>
      { kind := .kUpdate, text := updateStmt tableName primaryKeys u }) ++
    (changes.inserts.map fun i =>
      { kind := .kInsert, text := insertStmt tableName primaryKeys i })

/-- Column metadata as delivered to the webview
(`src/src/extension.ts`, `columnsMetadata`). -/
structure ColMeta where
  name : String
  notNull : Bool
  isPrimaryKey : Bool
deriving DecidableEq, Repr

/-- The failure test of the webview `validateData`
(`src/src/extension.ts` lines 705-720): a cell value is rejected when it
is missing, falsy (empty), the `NULL` sentinel, or blank after trim. -/
def cellBad : Option String → Bool
  | none => true
  | some v => v = "" || v = "NULL" || jsTrim v = ""

/-- The webview `validateData` (`src/src/extension.ts` lines 705-720):
one error per primary-key or not-null column whose supplied value fails
`cellBad`. -/
def validateData (cols : List ColMeta) (primaryKeys : List String)
    (data : List (String × String)) : List String :=
  cols.filterMap fun col =>
    if (primaryKeys.contains col.name || col.notNull) &&
        cellBad (data.lookup col.name) then
      some (col.name ++ " 不能为空")
    else none

/-- Folding a cell list into a row object, one assignment per cell, as
the new-row merge loop of the webview `saveChanges`
(`src/src/extension.ts` lines 649-655). -/
def updateEntries (l : List (String × String))
    (cells : List (String × String)) : List (String × String) :=
  cells.foldl (fun acc p => setAssoc acc p.1 p.2) l

/-- The merge of new-row cell data into `modifiedData` performed by the
webview `saveChanges` before validation (`src/src/extension.ts`
lines 641-655). -/
def mergeNewRows (md : List (String × List (String × String)))
    (newRowElems : List (String × List (String × String))) :
    List (String × List (String × String)) :=
  newRowElems.foldl
    (fun acc p => setAssoc acc p.1 (updateEntries ((acc.lookup p.1).getD []) p.2))
    md

/-- The webview `saveChanges` of `src/src/extension.ts`
(lines 625-688): validate every modified row and every new row; when any
validation error exists, return without posting the save message
(`none`); otherwise post `{modifiedData, deletedRows, newRows}`. -/
def clientSave (cols : List ColMeta) (primaryKeys : List String)
    (modifiedData : List (String × List (String × String)))
    (deletedRows : List String)
    (newRowElems : List (String × List (String × String))) :
    Option SaveMsg :=
  let merged := mergeNewRows modifiedData newRowElems
  let hasErrors :=
    (modifiedData.any fun p =>
      !(validateData cols primaryKeys p.2).isEmpty) ||
    (newRowElems.any fun p =>
      !(validateData cols primaryKeys ((merged.lookup p.1).getD [])).isEmpty)
  if hasErrors then none
  else some
    { modifiedData := merged.map fun p => (p.1, p.2.map fun q => (q.1, Value.vStr q.2))
      deletedRows := deletedRows
      newRows := newRowElems.map Prod.fst }

/-- The writes of one full save cycle: the message posted by the webview
(if any) fed through the handler's `changes` construction and relational
statement builders; a rejected batch posts no message and so executes no
statement. -/
def pipelineWrites (cols : List ColMeta) (primaryKeys : List String)
    (tableName : String) (originalData : List (String × Row))
    (modifiedData : List (String × List (String × String)))
    (deletedRows : List String)
    (newRowElems : List (String × List (String × String))) : List Stmt :=
  match clientSave cols primaryKeys modifiedData deletedRows newRowElems with
  | none => []
  | some msg =>
    relationalStmts tableName primaryKeys msg.deletedRows originalData
      (buildChanges primaryKeys originalData msg)

/-- JavaScript truthiness of a row value (`if (rowData._id)`). -/
def truthy : Value → Bool
  | .vNull => false
  | .vUndefined => false
  | .vStr s => s ≠ ""
  | .vNum n => n ≠ 0

/-- A MongoDB write operation issued by the document branch of the save
handler (`src/src/extension.ts` lines 1110-1179). -/
inductive MongoWrite where
  | mDelete (filter : Row)
  | mUpdate (filter : Row) (setData : Row)
  | mInsert (doc : Row)
deriving DecidableEq, Repr

/-- The delete filter of the MongoDB branch (lines 1122-1141): `_id`
when truthy, otherwise all fields that are neither `null`, `undefined`
nor the empty string. -/
def mongoDeleteFilter (rowData : Row) : Row :=
  if truthy (objGet rowData "_id") then [("_id", objGet rowData "_id")]
  else rowData.filter fun p =>
    p.2 ≠ .vNull && p.2 ≠ .vUndefined && p.2 ≠ .vStr ""

/-- The update filter of the MongoDB branch (lines 1143-1157). -/
def mongoUpdateFilter (primaryKeyData : Row) : Row :=
  if truthy (objGet primaryKeyData "_id") then
    [("_id", objGet primaryKeyData "_id")]
  else primaryKeyData.filter fun p =>
    p.2 ≠ .vNull && p.2 ≠ .vUndefined && p.2 ≠ .vStr ""

/-- All MongoDB write operations of the document branch of the save
handler in execution order: deletes, then updates, then inserts
(`src/src/extension.ts` lines 1110-1179). -/
def mongoWrites (changes : Changes) : List MongoWrite :=
  (changes.deletes.map fun d => .mDelete (mongoDeleteFilter d.rowData)) ++
    (changes.updates.map fun u =>
      .mUpdate (mongoUpdateFilter u.primaryKeyData) u.updateData) ++
    (changes.inserts.map fun i => .mInsert i.insertData)

/-- Kind of a MongoDB write operation. -/
def MongoWrite.kind : MongoWrite → StmtKind
  | .mDelete _ => .kDelete
  | .mUpdate _ _ => .kUpdate
  | .mInsert _ => .kInsert

namespace P0

/-- `getRowIdentifier` of the unnamed webview variant
(`src/unnamed/part_000` lines 413-440): with primary keys, their trimmed
cell values (the `NULL` sentinel normalised to the empty string);
without primary keys, the row-position tag `__rowid` followed by every
editable cell value (`NULL` sentinel mapped to `null`). -/
def getRowIdentifier (primaryKeys : List String) (rowId : String)
    (cells : List (String × String)) : DBMan.Row :=
  if primaryKeys.length > 0 then
    primaryKeys.filterMap fun k =>
      (cells.lookup k).map fun t =>
        (k, DBMan.Value.vStr (if jsTrim t = "NULL" then "" else jsTrim t))
  else
    ("__rowid", DBMan.Value.vStr rowId) ::
      cells.map fun p =>
        (p.1, if jsTrim p.2 = "NULL" then DBMan.Value.vNull
              else DBMan.Value.vStr (jsTrim p.2))

/-- One conjunct of the delete `WHERE` clause of the unnamed variant
(`src/unnamed/part_000` lines 894-902); strings are embedded without
escaping. -/
def deleteCond (p : String × Value) : String :=
  if isNullish p.2 then p.1 ++ " IS NULL"
  else p.1 ++ " = " ++ renderNoEsc p.2

/-- The delete statement of the unnamed variant
(`src/unnamed/part_000` lines 893-911): built from the row identifier;
skipped when the `WHERE` clause is empty. -/
def deleteStmt (tableName : String) (identifier : Row) : Option String :=
  let conds := String.intercalate " AND "
    ((identifier.map deleteCond).filter (fun c => c ≠ ""))
  if conds = "" then none
  else some ("DELETE FROM " ++ tableName ++ " WHERE " ++ conds)

/-- One insert value of the unnamed variant
(`src/unnamed/part_000` lines 953-962); no quote escaping. -/
def insertVal (primaryKeys : List String) (p : String × Value) : String :=
  if primaryKeys.contains p.1 then renderNoEsc p.2
  else if p.2 = .vNull then "NULL"
  else renderNoEsc p.2

/-- The insert statement of the unnamed variant
(`src/unnamed/part_000` lines 948-966): every column except the one
literally named `id` is kept, regardless of primary-key membership or
emptiness. -/
def insertStmt (tableName : String) (primaryKeys : List String)
    (insertData : Row) : String :=
  let kept := insertData.filter fun p => p.1 ≠ "id"
  if kept.length > 0 then
    "INSERT INTO " ++ tableName ++ " (" ++
      String.intercalate ", " (kept.map Prod.fst) ++ ") VALUES (" ++
      String.intercalate ", " (kept.map (insertVal primaryKeys)) ++ ")"
  else "INSERT INTO " ++ tableName ++ " DEFAULT VALUES"

/-- The empty-batch guard of the unnamed variant `saveChanges`
(`src/unnamed/part_000` lines 576-583): the save message is posted only
when some modification, deletion or new row exists. -/
def postsMessage (modifiedCount deletedCount newCount : Nat) : Bool :=
  !(modifiedCount = 0 && deletedCount = 0 && newCount = 0)

end P0

/-- One full relational save cycle of the handler in
`src/src/extension.ts`: re-fetch the original data, build the `changes`
object, emit and execute the write statements, then re-fetch the row
set.  The backend is abstracted as a state `Db` with a fetch function
and a statement interpreter. -/
def saveCycle {Db : Type} (fetch : Db → List (String × Row))
    (applyStmt : Db → Stmt → Db) (db : Db) (primaryKeys : List String)
    (tableName : String) (msg : SaveMsg) :
    List Stmt × List (String × Row) :=
  let originalData := fetch db
  let changes := buildChanges primaryKeys originalData msg
  let stmts := relationalStmts tableName primaryKeys msg.deletedRows
    originalData changes
  (stmts, fetch (stmts.foldl applyStmt db))

/-- `maxRetries` of `DatabaseServiceImpl.connect`
(`src/unnamed/part_005` line 123). -/
def maxRetries : Nat := 3

/-- `retryDelay` of `DatabaseServiceImpl.connect`
(`src/unnamed/part_005` line 124), in milliseconds. -/
def retryDelay : Nat := 1000

/-- Observable events of the connect loop: a numbered connection attempt
or a backoff delay. -/
inductive ConnectEv where
  | attempt (n : Nat)
  | wait (ms : Nat)
deriving DecidableEq, Repr

/-- The retry loop of `DatabaseServiceImpl.connect`
(`src/unnamed/part_005` lines 122-207), driven by an oracle `ok` giving
the outcome of each numbered attempt: succeed and return on the first
successful attempt, return failure when the last allowed attempt fails,
otherwise wait `retryDelay` and try again. -/
def connectGo (ok : Nat → Bool) : Nat → Nat → List ConnectEv × Bool
  | 0, _ => ([], false)
  | remaining + 1, attempt =>
    if ok attempt then ([.attempt attempt], true)
    else if attempt = maxRetries then ([.attempt attempt], false)
    else
      let rest := connectGo ok remaining (attempt + 1)
      (.attempt attempt :: .wait retryDelay :: rest.1, rest.2)

/-- `DatabaseServiceImpl.connect`: the loop entered at attempt 1 with
`maxRetries` iterations available. -/
def connect (ok : Nat → Bool) : List ConnectEv × Bool :=
  connectGo ok maxRetries 1

/-- The attempt numbers recorded in a connect trace. -/
def attemptsOf (trace : List ConnectEv) : List Nat :=
  trace.filterMap fun e =>
    match e with
    | .attempt n => some n
    | .wait _ => none

/-- `DatabaseManager.connect` (`src/unnamed/part_002` lines 60-155),
the connect path reached through `ensureConnected`: resolve the profile
(throwing when it is missing), make a single driver connect attempt,
and on failure rethrow immediately — there is no retry loop and no
backoff delay. -/
def dmConnect (configFound : Bool) (ok : Bool) :
    List ConnectEv × Except String Bool :=
  if !configFound then ([], Except.error "未找到数据库配置")
  else if ok then ([ConnectEv.attempt 1], Except.ok true)
  else ([ConnectEv.attempt 1], Except.error "连接失败")

/-- Result of `DatabaseServiceImpl.executeQuery`: the queries issued to
the backend plus the outcome. -/
structure QueryTrace (α : Type) where
  attempts : List String
  result : Except String α
deriving Repr

/-- `DatabaseServiceImpl.executeQuery` (`src/unnamed/part_005`
lines 240-299): fail without touching the backend when no connection is
recorded; otherwise issue the query exactly once and rethrow any
backend error without retrying. -/
def executeQuery (connected : Bool)
    (exec : String → Except String (List Row)) (query : String) :
    QueryTrace (List Row) :=
  if connected then
    match exec query with
    | .ok rows => ⟨[query], .ok rows⟩
    | .error e => ⟨[query], .error e⟩
  else ⟨[], .error "未找到数据库连接"⟩

/-- The `DatabaseConfig` record (`src/unnamed/part_002` lines 11-23);
optional fields are `Option`-valued. -/
structure DatabaseConfig where
  type : String
  aliasName : String
  host : Option String
  port : Option Nat
  username : Option String
  password : Option String
  database : Option String
  filename : Option String
  connectionString : Option String
  sid : Option String
  serviceName : Option String
deriving DecidableEq, Repr

/-- A concrete SQLite profile used to evaluate the store operations. -/
def sampleConfig : DatabaseConfig :=
  ⟨"sqlite", "local", none, none, none, none, none, some "data.db",
   none, none, none⟩

/-- The first non-empty value of a chain of JavaScript `||` defaults
over possibly-missing strings. -/
def firstNonEmpty : List (Option String) → String
  | [] => ""
  | o :: rest =>
    match o with
    | some s => if s = "" then firstNonEmpty rest else s
    | none => firstNonEmpty rest

/-- `ConfigManager.generateConnectionId` (`src/unnamed/part_003`
lines 107-110), with the timestamp passed explicitly. -/
def generateConnectionId (c : DatabaseConfig) (now : Nat) : String :=
  c.type ++ "-" ++ firstNonEmpty [c.host, c.filename] ++ "-" ++
    firstNonEmpty [c.database] ++ "-" ++ toString now

/-- Heap model for `ConfigManager`: JavaScript objects live at numbered
references; the store maps a connection id to the reference of its
stored profile object.  A spread copy `{...config}` allocates a fresh
reference holding the same field values. -/
structure CMState where
  heap : Nat → DatabaseConfig
  next : Nat
  store : List (String × Nat)

/-- Allocation of a fresh object holding a copy of the value at `r`. -/
def allocCopy (st : CMState) (r : Nat) : Nat × CMState :=
  (st.next,
   { heap := fun x => if x = st.next then st.heap r else st.heap x
     next := st.next + 1
     store := st.store })

/-- In-place mutation of the object at reference `r` (what a caller does
to a config object it holds). -/
def mutateRef (st : CMState) (r : Nat)
    (f : DatabaseConfig → DatabaseConfig) : CMState :=
  { st with heap := fun x => if x = r then f (st.heap x) else st.heap x }

/-- The stored profile value for an id, read through the store. -/
def readStored (st : CMState) (id : String) : Option DatabaseConfig :=
  (st.store.lookup id).map st.heap

/-- `ConfigManager.addConfig` (`src/unnamed/part_003` lines 69-74):
derive the id, store a spread copy of the argument object, return the
id. -/
def addConfig (st : CMState) (argRef : Nat) (now : Nat) :
    String × CMState :=
  let id := generateConnectionId (st.heap argRef) now
  let (copyRef, st2) := allocCopy st argRef
  (id, { st2 with store := setAssoc st2.store id copyRef })

/-- `ConfigManager.updateConfig` (`src/unnamed/part_003` lines 84-91):
replace the stored profile with a spread copy of the argument when the
id exists. -/
def updateConfig (st : CMState) (id : String) (argRef : Nat) :
    Bool × CMState :=
  if (st.store.lookup id).isSome then
    let (copyRef, st2) := allocCopy st argRef
    (true, { st2 with store := setAssoc st2.store id copyRef })
  else (false, st)

/-- `ConfigManager.getConfig` (`src/unnamed/part_003` lines 93-96):
return a spread copy of the stored profile. -/
def getConfig (st : CMState) (id : String) : Option Nat × CMState :=
  match st.store.lookup id with
  | some r =>
    let (copyRef, st2) := allocCopy st r
    (some copyRef, st2)
  | none => (none, st)

/-- The copy loop of `ConfigManager.getAllConfigs`
(`src/unnamed/part_003` lines 98-105). -/
def copyAll (st : CMState) : List (String × Nat) →
    List (String × Nat) × CMState
  | [] => ([], st)
  | p :: rest =>
    let (copyRef, st2) := allocCopy st p.2
    let (tail, st3) := copyAll st2 rest
    ((p.1, copyRef) :: tail, st3)

/-- `ConfigManager.getAllConfigs`: a fresh copy of every stored
profile. -/
def getAllConfigs (st : CMState) : List (String × Nat) × CMState :=
  copyAll st st.store

/-- Well-formedness of a `ConfigManager` state: every stored reference
was allocated before `next`. -/
def CMWf (st : CMState) : Prop := ∀ p ∈ st.store, p.2 < st.next

/-- Operations of the `DatabaseManager` of `src/unnamed/part_002`, with
the environment outcome (connection success, close success) recorded in
the operation. -/
inductive DbOp where
  | connectOp (id : String) (success : Bool)
  | disconnectOp (id : String) (closeOk : Bool)
  | removeConfigOp (id : String) (closeOk : Bool)
  | ensureConnectedOp (id : String) (success : Bool)
deriving DecidableEq, Repr

/-- The observable state of `DatabaseManager`: the `connections` map
(live adapter handles, numbered) and the `connectionStatus` map. -/
structure DMState where
  connections : List (String × Nat)
  connectionStatus : List (String × Bool)
  nextHandle : Nat
deriving Repr

/-- `DatabaseManager.isConnected` (`src/unnamed/part_002`
lines 56-58): a pure status lookup. -/
def isConnected (st : DMState) (id : String) : Bool :=
  (st.connectionStatus.lookup id).getD false

/-- `DatabaseManager.connect` (`src/unnamed/part_002` lines 60-155): on
success the handle is recorded and then the status set to connected; on
any failure the exception propagates before either map is touched. -/
def applyConnect (st : DMState) (id : String) (success : Bool) : DMState :=
  if success then
    { connections := setAssoc st.connections id st.nextHandle
      connectionStatus := setAssoc st.connectionStatus id true
      nextHandle := st.nextHandle + 1 }
  else st

/-- `DatabaseManager.disconnect` (`src/unnamed/part_002`
lines 157-185): no-op without a handle; on a successful close the
handle is removed and the status cleared; a close error is caught and
leaves both maps untouched. -/
def applyDisconnect (st : DMState) (id : String) (closeOk : Bool) :
    DMState :=
  match st.connections.lookup id with
  | none => st
  | some _ =>
    if closeOk then
      { st with connections := eraseAssoc st.connections id
                connectionStatus := setAssoc st.connectionStatus id false }
    else st

/-- One `DatabaseManager` operation (`removeConfig` disconnects before
touching the profile store; `ensureConnected` connects only when the
status lookup is not `true`, `src/unnamed/part_002` lines 199-202 and
807-820). -/
def dmStep (st : DMState) (op : DbOp) : DMState :=
  match op with
  | .connectOp id success => applyConnect st id success
  | .disconnectOp id closeOk => applyDisconnect st id closeOk
  | .removeConfigOp id closeOk => applyDisconnect st id closeOk
  | .ensureConnectedOp id success =>
    if isConnected st id then st else applyConnect st id success

/-- The initial `DatabaseManager` state: both maps empty. -/
def dmInit : DMState := ⟨[], [], 0⟩

/-- The connection-status invariant: a connected status always has a
live handle behind it. -/
def DMInv (st : DMState) : Prop :=
  ∀ id, isConnected st id = true → (st.connections.lookup id).isSome

/-- Collapse every whitespace run to a single space
(`query.replace(/\s+/g, ' ')`), tracking whether the previous character
was whitespace. -/
def collapseWsAux : List Char → Bool → List Char
  | [], _ => []
  | c :: rest, prevWs =>
    if isWsChar c then
      if prevWs then collapseWsAux rest true
      else ' ' :: collapseWsAux rest true
    else c :: collapseWsAux rest false

/-- The cleaned MongoDB command: `query.trim().replace(/\s+/g, ' ')`
(`src/unnamed/part_002` line 447). -/
def cleanQuery (q : String) : String :=
  ⟨collapseWsAux (jsTrim q).data false⟩

/-- Case-insensitive prefix test on character lists (the `/i` regex
flag). -/
def startsWithCI : List Char → List Char → Bool
  | [], _ => true
  | _ :: _, [] => false
  | p :: ps, c :: cs => (p.toLower = c.toLower) && startsWithCI ps cs

/-- The seven MongoDB operations accepted by the command parser
(`src/unnamed/part_002` lines 464 and 483). -/
def mongoOps : List String :=
  ["find", "insertOne", "insertMany", "updateOne", "updateMany",
   "deleteOne", "deleteMany"]

/-- Try the command pattern `db.<collection>.<operation>` at the head of
the text: `db.` (case-insensitively), one or more non-dot characters, a
dot, then one of the seven operation names; the captured collection and
operation keep their source spelling. -/
def mongoMatchHere (l : List Char) : Option (String × String) :=
  if startsWithCI "db.".data l then
    let rest := l.drop 3
    let coll := rest.takeWhile fun c => c ≠ '.'
    if coll.length > 0 then
      match rest.drop coll.length with
      | '.' :: tail =>
        match mongoOps.find? (fun op => startsWithCI op.data tail) with
        | some op => some (⟨coll⟩, ⟨tail.take op.length⟩)
        | none => none
      | _ => none
    else none
  else none

/-- Leftmost match of the command pattern anywhere in the cleaned text,
as the regex search of `src/unnamed/part_002` line 464. -/
def mongoMatch : List Char → Option (String × String)
  | [] => none
  | c :: rest =>
    match mongoMatchHere (c :: rest) with
    | some r => some r
    | none => mongoMatch rest

/-- First index at or after `i` where `pat` occurs (JavaScript
`indexOf(pat, i)` restricted to found results). -/
def findSubFrom (pat : List Char) : List Char → Nat → Option Nat
  | [], i => if pat.isEmpty then some i else none
  | c :: rest, i =>
    if pat.isPrefixOf (c :: rest) then some i
    else findSubFrom pat rest (i + 1)

/-- First index at or after the start of the scan where the character
occurs. -/
def findCharFrom (ch : Char) (l : List Char) (start : Nat) : Option Nat :=
  findSubFrom [ch] (l.drop start) 0 |>.map (· + start)

/-- Last index of a character (JavaScript `lastIndexOf`). -/
def lastIndexOfChar (l : List Char) (ch : Char) : Option Nat :=
  (findSubFrom [ch] l.reverse 0).map fun i => l.length - 1 - i

/-- Whether `pat` occurs inside `l` (JavaScript `includes`). -/
def containsSub (l : List Char) (pat : List Char) : Bool :=
  (findSubFrom pat l 0).isSome

/-- JavaScript `s.startsWith(pre)`, on the underlying character
lists. -/
def jsStartsWith (s pre : String) : Bool :=
  pre.data.isPrefixOf s.data

/-- The argument-substring extraction of the MongoDB parser
(`src/unnamed/part_002` lines 610-617): the text strictly between the
first opening parenthesis at or after the operation name and the last
closing parenthesis, trimmed; `none` when either parenthesis is
missing or the range is empty/inverted. -/
def paramsStrOf (clean : String) (op : String) : Option String :=
  let l := clean.data
  match findSubFrom op.data l 0 with
  | none => none
  | some opIdx =>
    match findCharFrom '(' l opIdx with
    | none => none
    | some pIdx =>
      let startIndex := pIdx + 1
      match lastIndexOfChar l ')' with
      | none => none
      | some endIndex =>
        if startIndex > 0 && endIndex > startIndex then
          some (jsTrim ⟨(l.take endIndex).drop startIndex⟩)
        else none

/-- The argument parsing of the MongoDB executor
(`src/unnamed/part_002` lines 608-669), parametrised by the JSON parser
`parse` (with `none` standing for a `JSON.parse` exception): a single
argument falls back to the empty object on parse failure, the
two-argument form pushes two empty objects from its `catch`, an array
argument falls back to the empty array, and a missing or empty argument
list defaults to one empty object. -/
def mongoParams {J : Type} (parse : String → Option J) (emptyObj emptyArr : J)
    (clean : String) (op : String) : List J :=
  match paramsStrOf clean op with
  | none => [emptyObj]
  | some ps =>
    if ps = "" then [emptyObj]
    else if !jsStartsWith ps "[" && !containsSub ps.data "\x7d,\x7b".data then
      match parse ps with
      | some j => [j]
      | none => [emptyObj]
    else if containsSub ps.data "\x7d,\x7b".data then
      let parts := ps.splitOn "\x7d,\x7b"
      let part0 := parts.getD 0 ""
      let part1 := parts.getD 1 ""
      match parse (part0 ++ "\x7d") with
      | none => [emptyObj, emptyObj]
      | some j0 =>
        match parse ("\x7b" ++ part1) with
        | none => [j0, emptyObj, emptyObj]
        | some j1 => [j0, j1]
    else
      match parse ps with
      | some j => [j]
      | none => [emptyArr]

/-- A dispatched MongoDB operation: target collection, operation name
and parsed argument list. -/
structure MongoDispatch (J : Type) where
  collection : String
  operation : String
  params : List J
deriving Repr

/-- The manual fallback parse used when the regex fails
(`src/unnamed/part_002` lines 468-596): `db.` prefix, collection up to
the first dot, operation up to the first parenthesis, accepted only
when the operation is (case-sensitively) one of the seven supported
names. -/
def mongoManualMatch (clean : String) : Option (String × String) :=
  if jsStartsWith clean "db." then
    let afterPrefix := clean.data.drop 3
    match findCharFrom '.' afterPrefix 0 with
    | none => none
    | some dotIndex =>
      if dotIndex > 0 then
        let possibleCollection := afterPrefix.take dotIndex
        let afterCollection := afterPrefix.drop (dotIndex + 1)
        match findCharFrom '(' afterCollection 0 with
        | none => none
        | some opEnd =>
          if opEnd > 0 then
            let possibleOperation : String := ⟨afterCollection.take opEnd⟩
            if mongoOps.contains possibleOperation then
              some (⟨possibleCollection⟩, possibleOperation)
            else none
          else none
      else none
  else none

/-- The MongoDB branch of `DatabaseManager.executeQuery` applied to the
cleaned command (`src/unnamed/part_002` lines 447-707): match the
command pattern (regex first, manual fallback second), extract and
parse the arguments with their fallbacks, and dispatch; a command whose
operation is not one of the seven canonical (case-sensitive) names is
rejected by the final `switch`. -/
def mongoRunClean {J : Type} (parse : String → Option J)
    (emptyObj emptyArr : J) (clean : String) :
    Except String (MongoDispatch J) :=
  match mongoMatch clean.data with
  | some (coll, op) =>
    if mongoOps.contains op then
      .ok ⟨coll, op, mongoParams parse emptyObj emptyArr clean op⟩
    else .error ("不支持的MongoDB操作: " ++ op)
  | none =>
    match mongoManualMatch clean with
    | some (coll, op) =>
      .ok ⟨coll, op, mongoParams parse emptyObj emptyArr clean op⟩
    | none => .error "无效的MongoDB查询"

/-- `DatabaseManager.executeQuery`, MongoDB branch: clean the raw
command, then run it. -/
def executeQueryMongo {J : Type} (parse : String → Option J)
    (emptyObj emptyArr : J) (query : String) :
    Except String (MongoDispatch J) :=
  mongoRunClean parse emptyObj emptyArr (cleanQuery query)

/-! ### Association-list lemmas -/

theorem lookup_cons {α : Type} (a : String × α) (t : List (String × α))
    (k : String) :
    (a :: t).lookup k = if k = a.1 then some a.2 else t.lookup k := by
  rcases a with ⟨a1, a2⟩
  by_cases h : k = a1
  · simp [List.lookup, h]
  · simp [List.lookup, h]
    simp [show (k == a1) = false by simp [h]]

theorem mem_of_lookup {α : Type} {k : String} {v : α} :
    ∀ {l : List (String × α)}, l.lookup k = some v → (k, v) ∈ l := by
  intro l
  induction l with
  | nil => intro h; simp [List.lookup] at h
  | cons a t ih =>
    intro h
    rw [lookup_cons] at h
    by_cases hk : k = a.1
    · simp [hk] at h
      have : (k, v) = a := by
        rcases a with ⟨a1, a2⟩
        simp at hk h ⊢
        exact ⟨hk, h.symm⟩
      rw [this]
      exact List.mem_cons_self a t
    · simp [hk] at h
      exact List.mem_cons_of_mem _ (ih h)

theorem lookup_append {α : Type} :
    ∀ (l r : List (String × α)) (k : String),
      (l ++ r).lookup k =
        match l.lookup k with
        | some v => some v
        | none => r.lookup k := by
  intro l
  induction l with
  | nil => intro r k; rfl
  | cons a t ih =>
    intro r k
    rw [List.cons_append, lookup_cons, lookup_cons]
    by_cases hk : k = a.1 <;> simp [hk, ih]

theorem lookup_map_replace_self {α : Type} (k : String) (v : α) :
    ∀ (l : List (String × α)),
      (l.map fun p => if p.1 = k then (k, v) else p).lookup k =
        if (l.lookup k).isSome then some v else none := by
  intro l
  induction l with
  | nil => rfl
  | cons a t ih =>
    by_cases hak : a.1 = k
    · simp [lookup_cons, hak]
    · have hk : ¬ k = a.1 := fun h => hak h.symm
      simp only [List.map_cons, if_neg hak]
      rw [lookup_cons, lookup_cons]
      simp only [if_neg hk]
      exact ih

theorem lookup_map_replace_ne {α : Type} (k k2 : String) (v : α)
    (hk2 : k2 ≠ k) :
    ∀ (l : List (String × α)),
      (l.map fun p => if p.1 = k then (k, v) else p).lookup k2 =
        l.lookup k2 := by
  intro l
  induction l with
  | nil => rfl
  | cons a t ih =>
    by_cases hak : a.1 = k
    · simp only [List.map_cons, if_pos hak]
      rw [lookup_cons, lookup_cons]
      have h1 : ¬ k2 = (k, v).1 := hk2
      have h2 : ¬ k2 = a.1 := by rw [hak]; exact hk2
      simp [h1, h2, ih]
    · simp only [List.map_cons, if_neg hak]
      rw [lookup_cons, lookup_cons, ih]

theorem lookup_setAssoc {α : Type} (l : List (String × α)) (k k2 : String)
    (v : α) :
    (setAssoc l k v).lookup k2 = if k2 = k then some v else l.lookup k2 := by
  unfold setAssoc
  by_cases hs : (l.lookup k).isSome
  · rw [if_pos hs]
    by_cases hk2 : k2 = k
    · subst hk2; rw [lookup_map_replace_self]; simp [hs]
    · rw [lookup_map_replace_ne k k2 v hk2]; simp [hk2]
  · rw [if_neg hs, lookup_append]
    by_cases hk2 : k2 = k
    · subst hk2
      have hnone : l.lookup k2 = none := by
        cases h : l.lookup k2
        · rfl
        · rw [h] at hs; simp at hs
      simp [hnone, lookup_cons]
    · cases h : l.lookup k2
      · simp only [h, if_neg hk2]
        rw [lookup_cons]
        simp [hk2, List.lookup, h]
      · simp [h, hk2]

theorem lookup_eraseAssoc_ne {α : Type} (k k2 : String) (h : k2 ≠ k) :
    ∀ (l : List (String × α)),
      (eraseAssoc l k).lookup k2 = l.lookup k2 := by
  intro l
  induction l with
  | nil => rfl
  | cons a t ih =>
    by_cases hak : a.1 = k
    · have he : eraseAssoc (a :: t) k = eraseAssoc t k := by
        simp [eraseAssoc, List.filter_cons, hak]
      rw [he, ih, lookup_cons]
      have hka : ¬ k2 = a.1 := by rw [hak]; exact h
      simp [hka]
    · have he : eraseAssoc (a :: t) k = a :: eraseAssoc t k := by
        simp [eraseAssoc, List.filter_cons, hak]
      rw [he, lookup_cons, lookup_cons, ih]

theorem strAssoc (a b c : String) : a ++ b ++ c = a ++ (b ++ c) := by
  show String.mk ((a ++ b).data ++ c.data) = String.mk (a.data ++ (b ++ c).data)
  show String.mk ((a.data ++ b.data) ++ c.data) =
    String.mk (a.data ++ (b.data ++ c.data))
  rw [List.append_assoc]

theorem assocUnique {α : Type} {c : String} {v w : α} :
    ∀ {l : List (String × α)}, (l.map Prod.fst).Nodup →
      (c, v) ∈ l → (c, w) ∈ l → v = w := by
  intro l
  induction l with
  | nil => intro _ h; simp at h
  | cons a t ih =>
    intro hnd h1 h2
    simp only [List.map_cons, List.nodup_cons] at hnd
    rcases List.mem_cons.1 h1 with h1 | h1
    · rcases List.mem_cons.1 h2 with h2 | h2
      · rw [← h1] at h2
        exact (Prod.mk.injEq _ _ _ _ ▸ h2).2.symm
      · exfalso
        apply hnd.1
        rw [← h1]
        exact List.mem_map.2 ⟨(c, w), h2, rfl⟩
    · rcases List.mem_cons.1 h2 with h2 | h2
      · exfalso
        apply hnd.1
        rw [← h2]
        exact List.mem_map.2 ⟨(c, v), h1, rfl⟩
      · exact ih hnd.2 h1 h2

/-! ### Quote-escaping lemmas -/

theorem escapeSq_count (s : String) :
    (escapeSq s).data.count sq = 2 * s.data.count sq := by
  show (s.data.foldr (fun c acc => if c = sq then sq :: sq :: acc else c :: acc)
      []).count sq = 2 * s.data.count sq
  induction s.data with
  | nil => rfl
  | cons c t ih =>
    by_cases hc : c = sq
    · simp only [List.foldr_cons, if_pos hc, hc, List.count_cons]
      simp [ih]
      omega
    · simp only [List.foldr_cons, if_neg hc, List.count_cons]
      have : (c == sq) = false := by simp [hc]
      simp [this, ih]

theorem isNullish_eq_false_of_keepPK {v : Value} (h : keepPK v = true) :
    isNullish v = false := by
  cases v with
  | vNull => simp [keepPK] at h
  | vUndefined => simp [keepPK] at h
  | vNum n => rfl
  | vStr s =>
    simp [keepPK] at h
    have hs : ¬ s = "" := by
      intro he
      rw [he] at h
      exact h.2 rfl
    simp [isNullish, h.1, hs]

/-! ### Claim theorems -/

/-- C2: in every save cycle the write operations are executed in the
fixed order all deletes, then all updates, then all inserts, both in
the relational branch and in the MongoDB branch of the save handler. -/
theorem save_write_order (tableName : String)
    (primaryKeys deletedRows : List String)
    (originalData : List (String × Row)) (changes : Changes) :
    (∃ ds us ins,
      relationalStmts tableName primaryKeys deletedRows originalData changes =
        ds ++ us ++ ins ∧
      (∀ s ∈ ds, s.kind = StmtKind.kDelete) ∧
      (∀ s ∈ us, s.kind = StmtKind.kUpdate) ∧
      (∀ s ∈ ins, s.kind = StmtKind.kInsert)) ∧
    (∃ ds us ins,
      mongoWrites changes = ds ++ us ++ ins ∧
      (∀ w ∈ ds, w.kind = StmtKind.kDelete) ∧
      (∀ w ∈ us, w.kind = StmtKind.kUpdate) ∧
      (∀ w ∈ ins, w.kind = StmtKind.kInsert)) := by
  constructor
  · refine ⟨_, _, _, rfl, ?_, ?_, ?_⟩ <;>
      · intro s hs
        rcases List.mem_map.1 hs with ⟨q, _, rfl⟩
        rfl
  · refine ⟨_, _, _, rfl, ?_, ?_, ?_⟩ <;>
      · intro w hw
        rcases List.mem_map.1 hw with ⟨q, _, rfl⟩
        rfl

/-- C8: a save cycle started from an empty edit batch generates and
executes zero write statements and returns the row set of the unchanged
backend, which is the fetched snapshot; the unnamed webview variant
additionally refuses to post a save message for an empty batch. -/
theorem empty_batch_no_writes {Db : Type} (fetch : Db → List (String × Row))
    (applyStmt : Db → Stmt → Db) (db : Db) (primaryKeys : List String)
    (tableName : String) :
    saveCycle fetch applyStmt db primaryKeys tableName ⟨[], [], []⟩ =
      ([], fetch db) ∧
    P0.postsMessage 0 0 0 = false :=
  ⟨rfl, rfl⟩

/-- C4 counterexample: the `UPDATE` builder embeds a string containing a
single quote without doubling it, so the claim that every generated
write statement escapes quotes fails on this input. -/
theorem update_escaping_counterexample :
    updateStmt "users" ["id"]
        ⟨[("id", Value.vNum 3)], [("name", Value.vStr ("O" ++ sqs ++ "Brien"))]⟩ =
      "UPDATE users SET name = " ++ sqs ++ "O" ++ sqs ++ "Brien" ++ sqs ++
        " WHERE id = 3" ∧
    updateStmt "users" ["id"]
        ⟨[("id", Value.vNum 3)], [("name", Value.vStr ("O" ++ sqs ++ "Brien"))]⟩ ≠
      "UPDATE users SET name = " ++ sqs ++ escapeSq ("O" ++ sqs ++ "Brien") ++
        sqs ++ " WHERE id = 3" := by
  constructor <;> decide

/-- C4 amended: quote doubling is applied in delete conditions and
insert values but not in update fragments; nullish values render as the
unquoted keyword `NULL` (`IS NULL` in conditions); numeric values are
embedded without quotes everywhere. -/
theorem literal_formatting :
    (∀ s : String, (escapeSq s).data.count sq = 2 * s.data.count sq) ∧
    (∀ (c s : String), isNullish (Value.vStr s) = false →
      deleteCond (c, Value.vStr s) = c ++ " = " ++ sqs ++ escapeSq s ++ sqs) ∧
    (∀ s : String, isNullish (Value.vStr s) = false →
      insertVal (Value.vStr s) = sqs ++ escapeSq s ++ sqs) ∧
    (∀ (pks : List String) (c s : String),
      updateSet pks (c, Value.vStr s) = c ++ " = " ++ sqs ++ s ++ sqs) ∧
    (∀ (c : String) (v : Value), isNullish v = true →
      deleteCond (c, v) = c ++ " IS NULL") ∧
    (∀ v : Value, isNullish v = true → insertVal v = "NULL") ∧
    (∀ (pks : List String) (c : String), pks.contains c = false →
      updateSet pks (c, Value.vNull) = c ++ " = NULL") ∧
    (∀ (c : String) (n : Int), deleteCond (c, Value.vNum n) =
      c ++ " = " ++ toString n) ∧
    (∀ n : Int, insertVal (Value.vNum n) = toString n) ∧
    (∀ (pks : List String) (c : String) (n : Int),
      updateSet pks (c, Value.vNum n) = c ++ " = " ++ toString n) := by
  refine ⟨escapeSq_count, ?_, ?_, ?_, ?_, ?_, ?_, ?_, ?_, ?_⟩
  · intro c s h
    simp [deleteCond, h, renderEsc, strAssoc]
  · intro s h
    simp [insertVal, h, renderEsc]
  · intro pks c s
    by_cases h : pks.contains c <;> simp [updateSet, h, renderNoEsc, strAssoc]
  · intro c v h
    simp [deleteCond, h]
  · intro v h
    simp [insertVal, h]
  · intro pks c h
    have hmem : ¬ c ∈ pks := by simpa using h
    simp [updateSet, hmem]
  · intro c n
    simp [deleteCond, isNullish, renderEsc, jsRaw, strAssoc]
  · intro n
    simp [insertVal, isNullish, renderEsc, jsRaw]
  · intro pks c n
    by_cases h : pks.contains c <;>
      simp [updateSet, h, renderNoEsc, jsRaw, strAssoc]

/-- C4 witness: the formatting lemmas applied at concrete inputs. -/
theorem literal_formatting_witness :
    deleteCond ("a", Value.vStr "x") = "a = " ++ sqs ++ escapeSq "x" ++ sqs ∧
    insertVal (Value.vStr "x") = sqs ++ escapeSq "x" ++ sqs ∧
    deleteCond ("a", Value.vNull) = "a IS NULL" ∧
    insertVal Value.vNull = "NULL" ∧
    updateSet [] ("a", Value.vNull) = "a = NULL" :=
  ⟨literal_formatting.2.1 "a" "x" (by decide),
   literal_formatting.2.2.1 "x" (by decide),
   literal_formatting.2.2.2.2.1 "a" Value.vNull (by decide),
   literal_formatting.2.2.2.2.2.1 Value.vNull (by decide),
   literal_formatting.2.2.2.2.2.2.1 [] "a" (by decide)⟩

/-- C5: on a table with no primary keys the unnamed variant builds its
delete predicate from the full row identifier — equality over every
editable column with `IS NULL` for nullish values — but the identifier
also carries the client-side `__rowid` tag, which therefore appears in
the SQL sent to the backend. -/
theorem norowkey_delete_sends_rowid :
    P0.deleteStmt "t" (P0.getRowIdentifier [] "0" [("a", "x"), ("b", "NULL")]) =
      some ("DELETE FROM t WHERE __rowid = " ++ sqs ++ "0" ++ sqs ++
        " AND a = " ++ sqs ++ "x" ++ sqs ++ " AND b IS NULL") := by
  decide

/-- C3 counterexample: the unnamed variant's insert loop drops the
column literally named `id` even when the primary key has an explicit
non-empty value, so the claim that such a value is included verbatim
fails there. -/
theorem variant_insert_drops_id :
    P0.insertStmt "t" ["id"] [("id", Value.vStr "5")] =
      "INSERT INTO t DEFAULT VALUES" ∧
    P0.insertStmt "t" ["id"] [("id", Value.vStr "5")] ≠
      "INSERT INTO t (id) VALUES (" ++ sqs ++ "5" ++ sqs ++ ")" := by
  constructor <;> decide

/-- C3 amended: in the insert loop of `src/src/extension.ts` a
primary-key column with an empty/`NULL` value is omitted from the
generated column list, a primary-key column with a usable value is kept
with its escaped rendering, and every non-primary-key column is kept
with nullish values rendered as `NULL`. -/
theorem insert_pk_stripping :
    (∀ (pks : List String) (iOp : InsertOp) (c : String) (v : Value),
      (iOp.insertData.map Prod.fst).Nodup → (c, v) ∈ iOp.insertData →
      pks.contains c = true → keepPK v = false →
      c ∉ (insertKept pks iOp).map Prod.fst) ∧
    (∀ (pks : List String) (iOp : InsertOp) (c : String) (v : Value),
      (c, v) ∈ iOp.insertData → pks.contains c = true → keepPK v = true →
      (c, v) ∈ insertKept pks iOp ∧ insertVal v = renderEsc v) ∧
    (∀ (pks : List String) (iOp : InsertOp) (c : String) (v : Value),
      (c, v) ∈ iOp.insertData → pks.contains c = false →
      (c, v) ∈ insertKept pks iOp ∧
        (isNullish v = true → insertVal v = "NULL")) := by
  refine ⟨?_, ?_, ?_⟩
  · intro pks iOp c v hnd hmem hc hk hcontra
    rcases List.mem_map.1 hcontra with ⟨p, hp, hfst⟩
    have hpf := List.mem_filter.1 hp
    rcases p with ⟨c2, w⟩
    dsimp at hfst
    subst hfst
    have hw : v = w := assocUnique hnd hmem hpf.1
    have hpred := hpf.2
    simp only [insertKept] at hpred ⊢
    rw [hc] at hpred
    simp at hpred
    rw [← hw] at hpred
    rw [hpred] at hk
    exact Bool.true_eq_false.mp hk
  · intro pks iOp c v hmem hc hk
    refine ⟨List.mem_filter.2 ⟨hmem, ?_⟩, ?_⟩
    · simp [hc, hk]
    · simp [insertVal, isNullish_eq_false_of_keepPK hk]
  · intro pks iOp c v hmem hc
    have hm : ¬ c ∈ pks := by simpa using hc
    refine ⟨List.mem_filter.2 ⟨hmem, ?_⟩, ?_⟩
    · simp [hm]
    · intro h
      simp [insertVal, h]

/-- C3 witness: the stripping properties applied at concrete inserts. -/
theorem insert_pk_stripping_witness :
    ("id" ∉ (insertKept ["id"]
        ⟨[("id", Value.vStr ""), ("name", Value.vStr "bob")]⟩).map Prod.fst) ∧
    ("id", Value.vStr "7") ∈ insertKept ["id"] ⟨[("id", Value.vStr "7")]⟩ ∧
    insertVal (Value.vStr "") = "NULL" :=
  ⟨insert_pk_stripping.1 ["id"] ⟨[("id", Value.vStr ""), ("name", Value.vStr "bob")]⟩
      "id" (Value.vStr "") (by decide) (by decide) (by decide) (by decide),
   (insert_pk_stripping.2.1 ["id"] ⟨[("id", Value.vStr "7")]⟩ "id"
      (Value.vStr "7") (by decide) (by decide) (by decide)).1,
   (insert_pk_stripping.2.2 ["id"] ⟨[("email", Value.vStr "")]⟩ "email"
      (Value.vStr "") (by decide) (by decide)).2 (by decide)⟩

theorem connectGo_succ (ok : Nat → Bool) (r a : Nat) :
    connectGo ok (r + 1) a =
      if ok a then ([.attempt a], true)
      else if a = maxRetries then ([.attempt a], false)
      else (.attempt a :: .wait retryDelay :: (connectGo ok r (a + 1)).1,
            (connectGo ok r (a + 1)).2) := rfl

theorem connect_eval (ok : Nat → Bool) :
    connect ok =
      if ok 1 then ([.attempt 1], true)
      else if ok 2 then ([.attempt 1, .wait 1000, .attempt 2], true)
      else if ok 3 then
        ([.attempt 1, .wait 1000, .attempt 2, .wait 1000, .attempt 3], true)
      else
        ([.attempt 1, .wait 1000, .attempt 2, .wait 1000, .attempt 3],
         false) := by
  have e1 : connect ok = connectGo ok (2 + 1) 1 := rfl
  rw [e1, connectGo_succ]
  cases h1 : ok 1
  · rw [if_neg (by simp), if_neg (by decide)]
    have e2 : connectGo ok 2 2 = connectGo ok (1 + 1) 2 := rfl
    rw [e2, connectGo_succ]
    cases h2 : ok 2
    · rw [if_neg (by simp), if_neg (by decide)]
      have e3 : connectGo ok 1 3 = connectGo ok (0 + 1) 3 := rfl
      rw [e3, connectGo_succ]
      cases h3 : ok 3
      · rw [if_neg (by simp), if_pos (by decide)]
        simp [retryDelay]
      · rw [if_pos rfl]
        simp [retryDelay]
    · rw [if_pos rfl]
      simp [retryDelay]
  · rw [if_pos rfl]
    simp

/-- C7 counterexample: `DatabaseManager.connect` — the connect path the
extension reaches through `ensureConnected` — fails to its caller after
exactly one attempt, with no retry and no backoff, so the claim that
every initial connect path retries up to 3 attempts and only fails
after the last one is false on this cited path. -/
theorem manager_connect_single_attempt :
    dmConnect true false =
      ([ConnectEv.attempt 1], Except.error "连接失败") ∧
    attemptsOf (dmConnect true false).1 = [1] :=
  ⟨rfl, rfl⟩

/-- C7 amended: the retry logic lives in `DatabaseServiceImpl.connect`:
that path retries up to `maxRetries = 3` attempts with a fixed
`retryDelay = 1000` ms backoff between consecutive attempts, reports
failure only when the third attempt has failed, and succeeds at the
first successful attempt; `DatabaseManager.connect` instead makes a
single attempt and propagates the failure immediately; and
`executeQuery` issues its backend call at most once, rethrowing errors
without any retry. -/
theorem connect_retry_behavior :
    (∀ ok : Nat → Bool, (connect ok).2 = false →
      attemptsOf (connect ok).1 = [1, 2, 3] ∧
      ok 1 = false ∧ ok 2 = false ∧ ok 3 = false) ∧
    (∀ (ok : Nat → Bool) (e : ConnectEv) (ms : Nat),
      e ∈ (connect ok).1 → e = .wait ms → ms = retryDelay) ∧
    (∀ ok : Nat → Bool, (attemptsOf (connect ok).1).length ≤ maxRetries) ∧
    (maxRetries = 3 ∧ retryDelay = 1000) ∧
    (∀ (ok : Nat → Bool) (k : Nat), 1 ≤ k → k ≤ 3 →
      (∀ j, 1 ≤ j → j < k → ok j = false) → ok k = true →
      (connect ok).2 = true ∧ attemptsOf (connect ok).1 = List.range' 1 k) ∧
    (∀ (connected : Bool) (exec : String → Except String (List Row))
        (q : String),
      (executeQuery connected exec q).attempts.length ≤ 1 ∧
      (∀ e, exec q = .error e → connected = true →
        executeQuery connected exec q = ⟨[q], .error e⟩)) ∧
    (∀ ok : Bool, (dmConnect true ok).1 = [ConnectEv.attempt 1] ∧
      (ok = false → (dmConnect true ok).2 = Except.error "连接失败")) := by
  refine ⟨?_, ?_, ?_, ⟨rfl, rfl⟩, ?_, ?_, ?_⟩
  · intro ok h
    rw [connect_eval] at h ⊢
    cases h1 : ok 1 <;> cases h2 : ok 2 <;> cases h3 : ok 3 <;>
      simp [h1, h2, h3, attemptsOf] at h ⊢
  · intro ok e ms hmem he
    rw [connect_eval] at hmem
    subst he
    show ms = 1000
    cases h1 : ok 1 <;> cases h2 : ok 2 <;> cases h3 : ok 3 <;>
      simp [h1, h2, h3] at hmem <;> omega
  · intro ok
    rw [connect_eval]
    cases h1 : ok 1 <;> cases h2 : ok 2 <;> cases h3 : ok 3 <;>
      simp [h1, h2, h3, attemptsOf, maxRetries]
  · intro ok k hk1 hk3 hprev hk
    rw [connect_eval]
    interval_cases k
    · simp [hk, attemptsOf, List.range']
    · have h1 : ok 1 = false := hprev 1 (by omega) (by omega)
      simp [h1, hk, attemptsOf, List.range']
    · have h1 : ok 1 = false := hprev 1 (by omega) (by omega)
      have h2 : ok 2 = false := hprev 2 (by omega) (by omega)
      simp [h1, h2, hk, attemptsOf, List.range']
  · intro connected exec q
    constructor
    · cases connected <;> cases h : exec q <;> simp [executeQuery, h]
    · intro e he hc
      subst hc
      simp [executeQuery, he]
  · intro ok
    cases ok
    · exact ⟨rfl, fun _ => rfl⟩
    · exact ⟨rfl, fun h => Bool.noConfusion h⟩

/-- C7 witness: retry behavior evaluated at concrete attempt oracles. -/
theorem connect_retry_witness :
    attemptsOf (connect (fun _ => false)).1 = [1, 2, 3] ∧
    ((connect (fun n => n == 2)).2 = true ∧
      attemptsOf (connect (fun n => n == 2)).1 = List.range' 1 2) ∧
    executeQuery true (fun _ => Except.error "boom") "q" =
      ⟨["q"], Except.error "boom"⟩ ∧
    (dmConnect true false).2 = Except.error "连接失败" :=
  ⟨(connect_retry_behavior.1 (fun _ => false) (by decide)).1,
   connect_retry_behavior.2.2.2.2.1 (fun n => n == 2) 2 (by decide)
     (by decide) (by intro j h1 h2; interval_cases j; rfl) (by decide),
   (connect_retry_behavior.2.2.2.2.2.1 true (fun _ => Except.error "boom")
      "q").2 "boom" rfl rfl,
   (connect_retry_behavior.2.2.2.2.2.2 false).2 rfl⟩

theorem DMInv_applyConnect (st : DMState) (id : String) (success : Bool)
    (h : DMInv st) : DMInv (applyConnect st id success) := by
  cases success
  · exact h
  · intro id2 h2
    unfold applyConnect at h2 ⊢
    simp only [if_pos rfl] at h2 ⊢
    unfold isConnected at h2
    dsimp at h2 ⊢
    rw [lookup_setAssoc] at h2
    rw [lookup_setAssoc]
    by_cases hid : id2 = id
    · simp [hid]
    · rw [if_neg hid] at h2
      rw [if_neg hid]
      exact h id2 h2

theorem DMInv_applyDisconnect (st : DMState) (id : String) (closeOk : Bool)
    (h : DMInv st) : DMInv (applyDisconnect st id closeOk) := by
  unfold applyDisconnect
  cases hc : st.connections.lookup id
  · exact h
  · cases closeOk
    · exact h
    · intro id2 h2
      unfold isConnected at h2
      dsimp at h2 ⊢
      rw [lookup_setAssoc] at h2
      by_cases hid : id2 = id
      · rw [if_pos hid] at h2
        simp at h2
      · rw [if_neg hid] at h2
        rw [lookup_eraseAssoc_ne id id2 hid st.connections]
        exact h id2 h2

/-- C10: every `DatabaseManager` operation preserves the invariant that
a `true` connection status is backed by a live handle in the
`connections` map, and every operation sequence from the empty initial
state keeps it. -/
theorem connection_status_invariant :
    (∀ (st : DMState) (op : DbOp), DMInv st → DMInv (dmStep st op)) ∧
    (∀ ops : List DbOp, DMInv (ops.foldl dmStep dmInit)) := by
  have hstep : ∀ (st : DMState) (op : DbOp), DMInv st → DMInv (dmStep st op) := by
    intro st op hinv
    cases op with
    | connectOp id success => exact DMInv_applyConnect st id success hinv
    | disconnectOp id closeOk => exact DMInv_applyDisconnect st id closeOk hinv
    | removeConfigOp id closeOk => exact DMInv_applyDisconnect st id closeOk hinv
    | ensureConnectedOp id success =>
      show DMInv (if isConnected st id then st else applyConnect st id success)
      by_cases hc : isConnected st id
      · rw [if_pos hc]; exact hinv
      · rw [if_neg hc]; exact DMInv_applyConnect st id success hinv
  have hinit : DMInv dmInit := by
    intro id h
    simp [isConnected, dmInit, List.lookup] at h
  refine ⟨hstep, ?_⟩
  intro ops
  have hfold : ∀ (l : List DbOp) (st : DMState), DMInv st →
      DMInv (l.foldl dmStep st) := by
    intro l
    induction l with
    | nil => intro st h; exact h
    | cons op rest ih =>
      intro st h
      exact ih (dmStep st op) (hstep st op h)
  exact hfold ops dmInit hinit

/-- C10 witness: the invariant step applied to a concrete connect from
the initial state. -/
theorem connection_status_invariant_witness :
    DMInv (dmStep dmInit (DbOp.connectOp "a" true)) :=
  connection_status_invariant.1 dmInit (DbOp.connectOp "a" true)
    (fun id h => by simp [isConnected, dmInit, List.lookup] at h)

theorem copyAll_frame :
    ∀ (entries : List (String × Nat)) (st : CMState),
      (copyAll st entries).2.store = st.store ∧
      st.next ≤ (copyAll st entries).2.next ∧
      (∀ x, x < st.next → (copyAll st entries).2.heap x = st.heap x) ∧
      (∀ q ∈ (copyAll st entries).1, st.next ≤ q.2) := by
  intro entries
  induction entries with
  | nil =>
    intro st
    exact ⟨rfl, le_refl _, fun x _ => rfl, by simp [copyAll]⟩
  | cons p rest ih =>
    intro st
    obtain ⟨hstore, hnext, hheap, hrefs⟩ := ih (allocCopy st p.2).2
    have hst2 : (allocCopy st p.2).2.next = st.next + 1 := rfl
    have hco : copyAll st (p :: rest) =
        ((p.1, st.next) :: (copyAll (allocCopy st p.2).2 rest).1,
         (copyAll (allocCopy st p.2).2 rest).2) := rfl
    rw [hco]
    refine ⟨hstore, ?_, ?_, ?_⟩
    · have : st.next ≤ (allocCopy st p.2).2.next := by rw [hst2]; omega
      exact le_trans this hnext
    · intro x hx
      have hx2 : x < (allocCopy st p.2).2.next := by rw [hst2]; omega
      rw [hheap x hx2]
      show (if x = st.next then st.heap p.2 else st.heap x) = st.heap x
      rw [if_neg (Nat.ne_of_lt hx)]
    · intro q hq
      rcases List.mem_cons.1 hq with hq | hq
      · rw [hq]
      · have := hrefs q hq
        rw [hst2] at this
        omega

/-- C9: `ConfigManager` stores and hands out defensive copies: mutating
the object returned by `getConfig` or any value of `getAllConfigs`, or
mutating the argument object after `addConfig`/`updateConfig`, leaves
every stored profile unchanged. -/
theorem config_defensive_copies :
    (∀ (st : CMState) (id : String) (r : Nat) (st2 : CMState),
      CMWf st → getConfig st id = (some r, st2) →
      ∀ f, readStored (mutateRef st2 r f) id = readStored st id) ∧
    (∀ (st : CMState) (argRef now : Nat), CMWf st → argRef < st.next →
      ∀ f, readStored (mutateRef (addConfig st argRef now).2 argRef f)
          (addConfig st argRef now).1 =
        readStored (addConfig st argRef now).2 (addConfig st argRef now).1) ∧
    (∀ (st : CMState) (id : String) (argRef : Nat) (st2 : CMState),
      CMWf st → argRef < st.next → updateConfig st id argRef = (true, st2) →
      ∀ f, readStored (mutateRef st2 argRef f) id = readStored st2 id) ∧
    (∀ (st : CMState) (p : String × Nat)
        (f : DatabaseConfig → DatabaseConfig) (id2 : String),
      CMWf st → p ∈ (getAllConfigs st).1 →
      readStored (mutateRef (getAllConfigs st).2 p.2 f) id2 =
        readStored st id2) := by
  refine ⟨?_, ?_, ?_, ?_⟩
  · intro st id r st2 hwf hg f
    unfold getConfig at hg
    cases hl : st.store.lookup id with
    | none => rw [hl] at hg; cases hg
    | some r0 =>
      rw [hl] at hg
      have hr : r = st.next := by
        have := congrArg Prod.fst hg
        simpa [allocCopy] using this.symm
      have hs2 : st2 = (allocCopy st r0).2 := (congrArg Prod.snd hg).symm
      have hr0 : r0 < st.next := hwf (id, r0) (mem_of_lookup hl)
      subst hr hs2
      unfold readStored mutateRef allocCopy
      rw [hl]
      simp only [Option.map_some]
      have h1 : ¬ r0 = st.next := Nat.ne_of_lt hr0
      simp [h1]
  · intro st argRef now hwf hlt f
    have ha : (addConfig st argRef now).2 =
        { heap := fun x => if x = st.next then st.heap argRef else st.heap x
          next := st.next + 1
          store := setAssoc st.store (generateConnectionId (st.heap argRef) now)
            st.next } := rfl
    rw [ha]
    unfold readStored mutateRef
    rw [lookup_setAssoc]
    have hfst : (addConfig st argRef now).1 =
        generateConnectionId (st.heap argRef) now := rfl
    have h1 : ¬ st.next = argRef := (Nat.ne_of_lt hlt).symm
    rw [hfst]
    simp [h1]
  · intro st id argRef st2 hwf hlt hu f
    unfold updateConfig at hu
    by_cases hs : (st.store.lookup id).isSome
    · rw [if_pos hs] at hu
      have hs2 : st2 = { (allocCopy st argRef).2 with
          store := setAssoc (allocCopy st argRef).2.store id
            (allocCopy st argRef).1 } := (congrArg Prod.snd hu).symm
      subst hs2
      unfold readStored mutateRef allocCopy
      rw [lookup_setAssoc]
      simp only [if_pos rfl, Option.map_some]
      have h1 : ¬ st.next = argRef := (Nat.ne_of_lt hlt).symm
      simp [h1]
    · rw [if_neg hs] at hu
      cases hu
  · intro st p f id2 hwf hp
    obtain ⟨hstore, hnext, hheap, hrefs⟩ := copyAll_frame st.store st
    have href := hrefs p hp
    unfold readStored mutateRef getAllConfigs
    show ((copyAll st st.store).2.store.lookup id2).map _ =
      (st.store.lookup id2).map st.heap
    rw [hstore]
    cases hl : st.store.lookup id2 with
    | none => rfl
    | some rs =>
      have hrs : rs < st.next := hwf (id2, rs) (mem_of_lookup hl)
      have hne : ¬ rs = p.2 := by omega
      show some (if rs = p.2 then f ((copyAll st st.store).2.heap rs)
          else (copyAll st st.store).2.heap rs) = some (st.heap rs)
      rw [if_neg hne, hheap rs hrs]

/-- C9 witness: a one-profile store where the copy returned by
`getConfig` is mutated afterwards. -/
theorem config_defensive_copies_witness :
    readStored
        (mutateRef (getConfig ⟨fun _ => sampleConfig, 1, [("c", 0)]⟩ "c").2 1
          (fun c => { c with aliasName := "x" })) "c" =
      readStored ⟨fun _ => sampleConfig, 1, [("c", 0)]⟩ "c" :=
  config_defensive_copies.1 ⟨fun _ => sampleConfig, 1, [("c", 0)]⟩ "c" 1
    (getConfig ⟨fun _ => sampleConfig, 1, [("c", 0)]⟩ "c").2
    (by
      intro p hp
      have : p = ("c", 0) := by simpa using hp
      rw [this]
      decide)
    rfl (fun c => { c with aliasName := "x" })

theorem lookup_updateEntries_not_mem (c : String) :
    ∀ (cells l : List (String × String)), c ∉ cells.map Prod.fst →
      (updateEntries l cells).lookup c = l.lookup c := by
  intro cells
  induction cells with
  | nil => intro l _; rfl
  | cons a t ih =>
    intro l h
    simp only [List.map_cons, List.mem_cons] at h
    push_neg at h
    show (updateEntries (setAssoc l a.1 a.2) t).lookup c = l.lookup c
    rw [ih _ h.2, lookup_setAssoc, if_neg h.1]

theorem lookup_updateEntries_mem (c v : String) :
    ∀ (cells l : List (String × String)), (cells.map Prod.fst).Nodup →
      cells.lookup c = some v → (updateEntries l cells).lookup c = some v := by
  intro cells
  induction cells with
  | nil => intro l _ h; simp [List.lookup] at h
  | cons a t ih =>
    intro l hnd hv
    rw [lookup_cons] at hv
    simp only [List.map_cons, List.nodup_cons] at hnd
    by_cases hc : c = a.1
    · rw [if_pos hc] at hv
      show (updateEntries (setAssoc l a.1 a.2) t).lookup c = some v
      rw [lookup_updateEntries_not_mem c t _ (by rw [hc]; exact hnd.1)]
      rw [lookup_setAssoc, if_pos hc]
      exact hv
    · rw [if_neg hc] at hv
      show (updateEntries (setAssoc l a.1 a.2) t).lookup c = some v
      exact ih _ hnd.2 hv

theorem mergeNewRows_lookup_not_mem (rowId : String) :
    ∀ (elems md : List (String × List (String × String))),
      rowId ∉ elems.map Prod.fst →
      (mergeNewRows md elems).lookup rowId = md.lookup rowId := by
  intro elems
  induction elems with
  | nil => intro md _; rfl
  | cons a t ih =>
    intro md h
    simp only [List.map_cons, List.mem_cons] at h
    push_neg at h
    show (mergeNewRows
      (setAssoc md a.1 (updateEntries ((md.lookup a.1).getD []) a.2)) t).lookup
        rowId = md.lookup rowId
    rw [ih _ h.2, lookup_setAssoc, if_neg h.1]

theorem mergeNewRows_entry (rowId : String)
    (cells : List (String × String)) :
    ∀ (elems md : List (String × List (String × String))),
      (elems.map Prod.fst).Nodup → (rowId, cells) ∈ elems →
      ∃ old, (mergeNewRows md elems).lookup rowId =
        some (updateEntries old cells) := by
  intro elems
  induction elems with
  | nil => intro md _ h; simp at h
  | cons a t ih =>
    intro md hnd hmem
    simp only [List.map_cons, List.nodup_cons] at hnd
    rcases List.mem_cons.1 hmem with hm | hm
    · have ha1 : a.1 = rowId := by rw [← hm]
      have ha2 : a.2 = cells := by rw [← hm]
      refine ⟨(md.lookup a.1).getD [], ?_⟩
      show (mergeNewRows
        (setAssoc md a.1 (updateEntries ((md.lookup a.1).getD []) a.2))
          t).lookup rowId = _
      rw [mergeNewRows_lookup_not_mem rowId t _ (by rw [← ha1]; exact hnd.1)]
      rw [lookup_setAssoc, if_pos ha1.symm, ha2]
    · exact ih _ hnd.2 hm

theorem validateData_errors (cols : List ColMeta) (pks : List String)
    (data : List (String × String)) (col : ColMeta) (v : String)
    (hcol : col ∈ cols)
    (hp : pks.contains col.name = true ∨ col.notNull = true)
    (hl : data.lookup col.name = some v) (hb : cellBad (some v) = true) :
    (validateData cols pks data).isEmpty = false := by
  have hmem : (col.name ++ " 不能为空") ∈ validateData cols pks data := by
    apply List.mem_filterMap.2
    refine ⟨col, hcol, ?_⟩
    have hcond : (pks.contains col.name || col.notNull) = true := by
      rcases hp with h | h
      · rw [h]
        rfl
      · rw [h]
        exact Bool.or_true _
    rw [hl, hcond, hb]
    rfl
  cases he : validateData cols pks data
  · rw [he] at hmem
    simp at hmem
  · rfl

/-- C1: when any modified or new row assigns an empty, `NULL`, or
`'NULL'`-sentinel value to a primary-key or not-null column, the webview
validation rejects the whole batch: no save message is posted and the
full save pipeline executes zero write statements. -/
theorem validation_blocks_writes
    (cols : List ColMeta) (pks : List String) (tableName : String)
    (originalData : List (String × Row))
    (modifiedData : List (String × List (String × String)))
    (deletedRows : List String)
    (newRowElems : List (String × List (String × String)))
    (col : ColMeta) (v : String)
    (hcol : col ∈ cols)
    (hp : pks.contains col.name = true ∨ col.notNull = true)
    (hb : cellBad (some v) = true)
    (hsrc :
      (∃ rowId data, (rowId, data) ∈ modifiedData ∧
        data.lookup col.name = some v) ∨
      (∃ rowId cells, (rowId, cells) ∈ newRowElems ∧
        cells.lookup col.name = some v ∧ (cells.map Prod.fst).Nodup ∧
        (newRowElems.map Prod.fst).Nodup)) :
    clientSave cols pks modifiedData deletedRows newRowElems = none ∧
    pipelineWrites cols pks tableName originalData modifiedData deletedRows
      newRowElems = [] := by
  have hErr :
      ((modifiedData.any fun p =>
        !(validateData cols pks p.2).isEmpty) ||
      (newRowElems.any fun p =>
        !(validateData cols pks
          (((mergeNewRows modifiedData newRowElems).lookup p.1).getD
            [])).isEmpty)) = true := by
    rcases hsrc with ⟨rowId, data, hmem, hl⟩ |
      ⟨rowId, cells, hmem, hl, hndc, hnde⟩
    · have hA : (modifiedData.any fun p =>
          !(validateData cols pks p.2).isEmpty) = true := by
        apply List.any_eq_true.2
        refine ⟨(rowId, data), hmem, ?_⟩
        rw [validateData_errors cols pks data col v hcol hp hl hb]
        rfl
      rw [hA]
      rfl
    · obtain ⟨old, ho⟩ :=
        mergeNewRows_entry rowId cells newRowElems modifiedData hnde hmem
      have hlu : (updateEntries old cells).lookup col.name = some v :=
        lookup_updateEntries_mem col.name v cells old hndc hl
      have hB : (newRowElems.any fun p =>
          !(validateData cols pks
            (((mergeNewRows modifiedData newRowElems).lookup p.1).getD
              [])).isEmpty) = true := by
        apply List.any_eq_true.2
        refine ⟨(rowId, cells), hmem, ?_⟩
        have hgetd : ((mergeNewRows modifiedData newRowElems).lookup
            (rowId, cells).1).getD [] = updateEntries old cells := by
          dsimp only
          rw [ho]
          rfl
        rw [hgetd, validateData_errors cols pks (updateEntries old cells)
          col v hcol hp hlu hb]
        rfl
      rw [hB]
      simp
  have hnone : clientSave cols pks modifiedData deletedRows newRowElems =
      none := by
    unfold clientSave
    simp only [hErr]
    rfl
  refine ⟨hnone, ?_⟩
  unfold pipelineWrites
  rw [hnone]

/-- C1 witness: a single modified row blanking the primary key of
`users(id PK)` is rejected and yields zero writes. -/
theorem validation_blocks_writes_witness :
    clientSave [⟨"id", true, true⟩] ["id"] [("0", [("id", "")])] [] [] =
      none ∧
    pipelineWrites [⟨"id", true, true⟩] ["id"] "users" []
      [("0", [("id", "")])] [] [] = [] :=
  validation_blocks_writes [⟨"id", true, true⟩] ["id"] "users" []
    [("0", [("id", "")])] [] [] ⟨"id", true, true⟩ ""
    (by decide) (Or.inl (by decide)) (by decide)
    (Or.inl ⟨"0", [("id", "")], by decide, by decide⟩)

theorem dropWhile_replicate_space (n : Nat) (l : List Char) :
    (List.replicate n ' ' ++ l).dropWhile isWsChar = l.dropWhile isWsChar := by
  induction n with
  | zero => rfl
  | succ m ih =>
    rw [List.replicate_succ, List.cons_append, List.dropWhile_cons]
    rw [if_pos (by decide)]
    exact ih

theorem trimChars_append_replicate (m : Nat) (l : List Char) :
    trimChars (l ++ List.replicate m ' ') = trimChars l := by
  unfold trimChars
  rw [List.dropWhile_append]
  by_cases he : (l.dropWhile isWsChar).isEmpty
  · rw [if_pos he]
    have h1 : (List.replicate m ' ').dropWhile isWsChar = [] := by
      have h2 := dropWhile_replicate_space m []
      simpa using h2
    have h3 : l.dropWhile isWsChar = [] := by
      cases h : l.dropWhile isWsChar
      · rfl
      · rw [h] at he; simp at he
    rw [h1, h3]
  · rw [if_neg he]
    rw [List.reverse_append, List.reverse_replicate,
      dropWhile_replicate_space]

theorem trimChars_pad (n m : Nat) (l : List Char) :
    trimChars (List.replicate n ' ' ++ l ++ List.replicate m ' ') =
      trimChars l := by
  rw [List.append_assoc]
  have h1 : trimChars
      (List.replicate n ' ' ++ (l ++ List.replicate m ' ')) =
      trimChars (l ++ List.replicate m ' ') := by
    unfold trimChars
    rw [dropWhile_replicate_space]
  rw [h1, trimChars_append_replicate]

theorem cleanQuery_pad (n m : Nat) (q : String) :
    cleanQuery (⟨List.replicate n ' '⟩ ++ q ++ ⟨List.replicate m ' '⟩) =
      cleanQuery q := by
  unfold cleanQuery jsTrim
  have hd : ((⟨List.replicate n ' '⟩ : String) ++ q ++
      (⟨List.replicate m ' '⟩ : String)).data =
      List.replicate n ' ' ++ q.data ++ List.replicate m ' ' := rfl
  rw [hd, trimChars_pad]

/-- C6: the MongoDB command executor operates on the trimmed,
whitespace-normalised command (so surrounding whitespace never changes
the outcome), and once the command pattern matches a supported
operation it always dispatches — in particular a single argument whose
JSON fails to parse falls back to the empty object instead of aborting
with a parse error. -/
theorem mongo_parse_tolerance :
    (∀ (J : Type) (parse : String → Option J) (eo ea : J) (q : String)
        (n m : Nat),
      executeQueryMongo parse eo ea
          (⟨List.replicate n ' '⟩ ++ q ++ ⟨List.replicate m ' '⟩) =
        executeQueryMongo parse eo ea q) ∧
    (∀ (J : Type) (parse : String → Option J) (eo ea : J)
        (q coll op : String),
      mongoMatch (cleanQuery q).data = some (coll, op) →
      mongoOps.contains op = true →
      ∃ params, executeQueryMongo parse eo ea q =
        Except.ok ⟨coll, op, params⟩) ∧
    (∀ (J : Type) (parse : String → Option J) (eo ea : J)
        (q coll op ps : String),
      mongoMatch (cleanQuery q).data = some (coll, op) →
      mongoOps.contains op = true →
      paramsStrOf (cleanQuery q) op = some ps → ps ≠ "" →
      jsStartsWith ps "[" = false →
      containsSub ps.data "\x7d,\x7b".data = false →
      parse ps = none →
      executeQueryMongo parse eo ea q = Except.ok ⟨coll, op, [eo]⟩) := by
  refine ⟨?_, ?_, ?_⟩
  · intro J parse eo ea q n m
    unfold executeQueryMongo
    rw [cleanQuery_pad]
  · intro J parse eo ea q coll op hm hc
    refine ⟨mongoParams parse eo ea (cleanQuery q) op, ?_⟩
    unfold executeQueryMongo mongoRunClean
    rw [hm]
    have hcm : op ∈ mongoOps := by simpa using hc
    simp [hcm]
  · intro J parse eo ea q coll op ps hm hc hps hne hsw hcsub hparse
    unfold executeQueryMongo mongoRunClean
    rw [hm]
    have hcm : op ∈ mongoOps := by simpa using hc
    have hparams : mongoParams parse eo ea (cleanQuery q) op = [eo] := by
      unfold mongoParams
      rw [hps]
      simp [hne, hsw, hcsub, hparse]
    simp [hcm, hparams]

/-- C6 witness: a command with an unparsable argument still dispatches
with the empty-object fallback. -/
theorem mongo_parse_tolerance_witness :
    @executeQueryMongo Unit (fun _ => none) () () "db.users.find(BAD)" =
      Except.ok ⟨"users", "find", [()]⟩ :=
  mongo_parse_tolerance.2.2 Unit (fun _ => none) () () "db.users.find(BAD)"
    "users" "find" "BAD" (by decide) (by decide) (by decide) (by decide)
    (by decide) (by decide) rfl

end DBMan
